import Mathlib

/-!
Verification development for a small backtesting library (trading.py).

The library has three functions operating on a price time series:
  - EMA: adds an exponential-moving-average column to a dataframe,
    seeded by a simple average of the first `numPeriods` closes;
  - EMA_trading_strategy: scans three EMA columns and emits BUY/SELL
    signals driven by a boolean `bought` flag;
  - assessTradingStrategy: replays the signals against close prices,
    tracking an investment balance and trade success counters.

Embedding choices:
  - a dataframe column is a `List`; an entry that the source leaves as
    NaN (an undefined marker, never arithmetic input) is `Option.none`;
  - Python floats are embedded as `ℚ` (exact arithmetic in place of
    floating point);
  - the success-rate computation divides by `numSuccess + numFailure`,
    two Python ints, so with zero closed trades the source raises
    ZeroDivisionError; the embedding returns `Option.none` there.
-/

namespace Trading

/-- A buy or sell signal; a row with no signal is `Option.none` upstream. -/
inductive Signal
  | buy
  | sell
deriving DecidableEq

/-- Value of the EMA column at offset `n` past index `numPeriods - 1`,
unrolling the loop of `EMA` in trading.py: offset 0 is the simple
average of the first `numPeriods` closes (line 24), offset `n + 1` is the
recurrence `close[i] * k + out[i-1] * (1 - k)` with `k = 2/(numPeriods+1)`
(lines 20 and 27). -/
def emaRec (s : List ℚ) (numPeriods : Nat) : Nat → ℚ
  | 0 => (s.take numPeriods).sum / (numPeriods : ℚ)
  | n + 1 =>
      s.getD (numPeriods - 1 + (n + 1)) 0 * (2 / ((numPeriods : ℚ) + 1))
        + emaRec s numPeriods n * (1 - 2 / ((numPeriods : ℚ) + 1))

/-- The EMA column produced by `EMA(df, closeCol, numPeriods)` in
trading.py: the column starts all NaN (line 19) and the loop
`for i in range(numPeriods-1, len(dfCopy))` (line 21) fills indices
`numPeriods - 1 ..< len`, so indices below `numPeriods - 1` stay
undefined, and when `numPeriods - 1 ≥ len` the loop body never runs.
`s` is the close column; the result is the added column. -/
def EMA (s : List ℚ) (numPeriods : Nat) : List (Option ℚ) :=
  (List.range s.length).map fun i =>
    if i < numPeriods - 1 then none else some (emaRec s numPeriods (i - (numPeriods - 1)))

/-- One iteration of the loop of `EMA_trading_strategy` (lines 52-61):
given the three EMA entries at the current row and the `bought` flag,
produce the emitted signal and the new flag. A NaN among the three
entries hits the `continue` (lines 54-55). -/
def signalStep (e1 e2 e3 : Option ℚ) (bought : Bool) : Option Signal × Bool :=
  match e1, e2, e3 with
  | some a, some b, some c =>
      if b < a ∧ c < b ∧ bought = false then (some Signal.buy, true)
      else if b > a ∧ c > b ∧ bought = true then (some Signal.sell, false)
      else (none, bought)
  | _, _, _ => (none, bought)

/-- The scan of `EMA_trading_strategy` over the rows, threading the
`bought` flag; each row carries the three EMA entries
(emaCol1, emaCol2, emaCol3). -/
def genSignals (bought : Bool) : List (Option ℚ × Option ℚ × Option ℚ) → List (Option Signal)
  | [] => []
  | (a, b, c) :: rest =>
      ((signalStep a b c bought).1) :: genSignals (signalStep a b c bought).2 rest

/-- The Buy_Sell_Signal column produced by `EMA_trading_strategy`
(lines 47-63): flag initialized to `False` (line 49), single forward
pass over the rows. -/
def EMA_trading_strategy (e1 e2 e3 : List (Option ℚ)) : List (Option Signal) :=
  genSignals false (e1.zip (e2.zip e3))

/-- The cross-iteration state of `assessTradingStrategy`
(lines 86-91). -/
structure BState where
  investment : ℚ
  buyPrice : ℚ
  sellPrice : ℚ
  bought : Bool
  numSuccess : Nat
  numFailure : Nat
deriving DecidableEq

/-- Initial state of `assessTradingStrategy` (lines 86-91). -/
def initState (initialAmount : ℚ) : BState :=
  { investment := initialAmount, buyPrice := 0, sellPrice := 0,
    bought := false, numSuccess := 0, numFailure := 0 }

/-- One iteration of the loop of `assessTradingStrategy` (lines 94-108);
a row carries the close price and the signal entry. A NaN signal entry
compares unequal to both BUY and SELL, so it falls through to the no-op
branch, as does BUY while bought or SELL while not bought. -/
def assessStep (st : BState) (row : ℚ × Option Signal) : BState :=
  if row.2 = some Signal.buy ∧ st.bought = false then
    { st with buyPrice := row.1 * (1 + 0.0075), bought := true }
  else if row.2 = some Signal.sell ∧ st.bought = true then
    { st with
      sellPrice := row.1,
      investment := st.investment * (row.1 / st.buyPrice - 0.0075),
      numSuccess :=
        if st.investment * (row.1 / st.buyPrice - 0.0075) ≥ st.investment
        then st.numSuccess + 1 else st.numSuccess,
      numFailure :=
        if st.investment * (row.1 / st.buyPrice - 0.0075) ≥ st.investment
        then st.numFailure else st.numFailure + 1,
      bought := false }
  else st

/-- The state after the full scan of `assessTradingStrategy`
(lines 94-108) over the rows of the dataframe. -/
def backtestFold (rows : List (ℚ × Option Signal)) (initialAmount : ℚ) : BState :=
  rows.foldl assessStep (initState initialAmount)

/-- Round to nearest integer, ties to even: the rounding Python `round`
applies (used with 2 decimal digits at lines 110-114). -/
def roundHalfEven (q : ℚ) : ℤ :=
  if q - ⌊q⌋ < 1 / 2 then ⌊q⌋
  else if (1 : ℚ) / 2 < q - ⌊q⌋ then ⌊q⌋ + 1
  else if ⌊q⌋ % 2 = 0 then ⌊q⌋ else ⌊q⌋ + 1

/-- Python `round(x, 2)`. -/
def round2 (x : ℚ) : ℚ := (roundHalfEven (x * 100) : ℚ) / 100

/-- The result tuple of `assessTradingStrategy` (line 115):
(totalProfit, percentTotalProfit, endingInvestmentAmount, numSuccess,
numFailure, successRate). The source formats the two percentages as
strings with a percent sign; the embedding keeps the rounded numbers.
`endingInvestmentAmount` is only assigned at the last row (lines
109-110), so on an empty dataframe it stays 0. When
`numSuccess + numFailure = 0` the source raises ZeroDivisionError at
line 114 (integer 0/0) and returns nothing: the embedding returns
`none`. -/
def assessTradingStrategy (rows : List (ℚ × Option Signal)) (initialAmount : ℚ) :
    Option (ℚ × ℚ × ℚ × Nat × Nat × ℚ) :=
  let final := backtestFold rows initialAmount
  if final.numSuccess + final.numFailure = 0 then none
  else
    some (round2 (final.investment - initialAmount),
          round2 (final.investment / initialAmount * 100 - 100),
          if rows.isEmpty then 0 else round2 final.investment,
          final.numSuccess,
          final.numFailure,
          round2 ((final.numSuccess : ℚ) / ((final.numSuccess : ℚ) + (final.numFailure : ℚ)) * 100))

/-- Formalized from the specification, for comparison with the code:
the number of completed (BUY, SELL) pairs in a signal sequence, scanned
left to right with a holding flag — a pair is a BUY observed while not
holding matched by the next SELL observed while holding. -/
def completedPairs (holding : Bool) : List (Option Signal) → Nat
  | [] => 0
  | sig :: rest =>
      match sig, holding with
      | some Signal.buy, false => completedPairs true rest
      | some Signal.sell, true => completedPairs false rest + 1
      | _, _ => completedPairs holding rest

/-- Formalized from the specification, for comparison with the code:
the alternation predicate on a signal sequence — scanning left to right
with a holding flag, every BUY occurs only while the flag is false (and
sets it), every SELL only while the flag is true (and clears it). -/
def alternatesFrom (holding : Bool) : List (Option Signal) → Bool
  | [] => true
  | none :: rest => alternatesFrom holding rest
  | some Signal.buy :: rest => !holding && alternatesFrom true rest
  | some Signal.sell :: rest => holding && alternatesFrom false rest

/-- Entry `i` of the EMA column, for `i` within the series: undefined
below the loop start, the unrolled loop value from there on. -/
theorem EMA_getD (s : List ℚ) (p i : Nat) (h : i < s.length) :
    (EMA s p).getD i none =
      if i < p - 1 then none else some (emaRec s p (i - (p - 1))) := by
  unfold EMA
  rw [List.getD_eq_getElem?_getD, List.getElem?_map, List.getElem?_range h]
  rfl

/-- C2: for `1 ≤ p ≤ length s`, the EMA column has the length of `s`,
its first `p - 1` entries are undefined, and its entry at index `p - 1`
is the arithmetic mean of the first `p` elements of `s`. -/
theorem ema_warmup_and_seed (s : List ℚ) (p : Nat) (hp : 1 ≤ p) (hlen : p ≤ s.length) :
    (EMA s p).length = s.length ∧
    (∀ i, i < p - 1 → (EMA s p).getD i none = none) ∧
    (EMA s p).getD (p - 1) none = some ((s.take p).sum / (p : ℚ)) := by
  refine ⟨by simp [EMA], fun i hi => ?_, ?_⟩
  · rw [EMA_getD s p i (by omega), if_pos hi]
  · rw [EMA_getD s p (p - 1) (by omega), if_neg (lt_irrefl _), Nat.sub_self]
    rfl

/-- Witness for C2, on the concrete scenario of the specification:
series [10,20,30,40,50], period 3. -/
theorem ema_warmup_and_seed_witness :
    (EMA [10, 20, 30, 40, 50] 3).length = 5 ∧
    (EMA [10, 20, 30, 40, 50] 3).getD 1 none = none ∧
    (EMA [10, 20, 30, 40, 50] 3).getD 2 none = some 20 := by
  obtain ⟨h1, h2, h3⟩ :=
    ema_warmup_and_seed [10, 20, 30, 40, 50] 3 (by norm_num) (by norm_num)
  refine ⟨by simpa using h1, h2 1 (by norm_num), ?_⟩
  rw [h3]
  norm_num

/-- C3: for `1 ≤ p ≤ length s` and `p - 1 < i < length s`, the EMA
entry at `i` is defined and equals
`s[i] * k + output[i-1] * (1 - k)` with `k = 2 / (p + 1)`, where
`output[i-1]` is the (defined) EMA entry at `i - 1`. -/
theorem ema_recurrence (s : List ℚ) (p i : Nat) (hp : 1 ≤ p) (hlen : p ≤ s.length)
    (hi1 : p - 1 < i) (hi2 : i < s.length) :
    ∃ w, (EMA s p).getD (i - 1) none = some w ∧
      (EMA s p).getD i none =
        some (s.getD i 0 * (2 / ((p : ℚ) + 1)) + w * (1 - 2 / ((p : ℚ) + 1))) := by
  refine ⟨emaRec s p (i - 1 - (p - 1)), ?_, ?_⟩
  · rw [EMA_getD s p (i - 1) (by omega), if_neg (by omega)]
  · rw [EMA_getD s p i (by omega), if_neg (by omega),
      show i - (p - 1) = (i - 1 - (p - 1)) + 1 from by omega]
    simp only [emaRec]
    rw [show p - 1 + (i - 1 - (p - 1) + 1) = i from by omega]

/-- Witness for C3, on the concrete scenario of the specification:
series [10,20,30,40,50], period 3, index 3 (k = 1/2, 40·½ + 20·½ = 30). -/
theorem ema_recurrence_witness :
    (EMA [10, 20, 30, 40, 50] 3).getD 2 none = some 20 ∧
    (EMA [10, 20, 30, 40, 50] 3).getD 3 none = some 30 := by
  obtain ⟨w, hw, hi⟩ :=
    ema_recurrence [10, 20, 30, 40, 50] 3 3 (by norm_num) (by norm_num)
      (by norm_num) (by norm_num)
  have hw20 : w = 20 := by
    have : (EMA [10, 20, 30, 40, 50] 3).getD 2 none = some 20 := by
      rw [EMA_getD [10, 20, 30, 40, 50] 3 2 (by norm_num)]
      norm_num [emaRec]
    rw [this] at hw
    exact (Option.some_injective _ hw.symm)
  refine ⟨by rw [hw, hw20], ?_⟩
  rw [hi, hw20]
  norm_num

/-- Counterexample for C8: with a series of length 1 and period 2
(period exceeds the series length), EMA does not fail with an
invalid-argument error — it returns an ordinary output column. -/
theorem ema_no_invalid_argument_failure : EMA [1] 2 = [none] := by
  simp [EMA, List.range_succ]

/-- C8 as amended: EMA performs no argument validation; for every
period strictly greater than the series length it returns normally,
with an output column of the input length all of whose entries are
undefined. -/
theorem ema_no_validation_above_length (s : List ℚ) (p : Nat) (h : s.length < p) :
    (EMA s p).length = s.length ∧ ∀ i, (EMA s p).getD i none = none := by
  refine ⟨by simp [EMA], fun i => ?_⟩
  rcases lt_or_ge i s.length with hi | hi
  · rw [EMA_getD s p i hi, if_pos (by omega)]
  · rw [List.getD_eq_getElem?_getD, List.getElem?_eq_none (by simpa [EMA] using hi)]
    rfl

/-- Witness for the amended C8: series [1], period 2. -/
theorem ema_no_validation_above_length_witness :
    ([1] : List ℚ).length < 2 ∧ (EMA [1] 2).getD 0 none = none :=
  ⟨by norm_num, (ema_no_validation_above_length [1] 2 (by norm_num)).2 0⟩

/-- C10: for every period strictly greater than the series length, EMA
returns normally with an all-undefined column of the input length (the
loop body never runs). -/
theorem ema_period_gt_length_all_undefined (s : List ℚ) (p : Nat) (h : s.length < p) :
    EMA s p = List.replicate s.length none := by
  have hmem : ∀ b ∈ EMA s p, b = none := by
    intro b hb
    simp only [EMA, List.mem_map, List.mem_range] at hb
    obtain ⟨i, hi, hbe⟩ := hb
    rw [if_pos (by omega)] at hbe
    exact hbe.symm
  have hrep := List.eq_replicate_of_mem hmem
  rwa [show (EMA s p).length = s.length from by simp [EMA]] at hrep

/-- Witness for C10: series [1, 2], period 5. -/
theorem ema_period_gt_length_all_undefined_witness :
    ([1, 2] : List ℚ).length < 5 ∧ EMA [1, 2] 5 = List.replicate 2 none :=
  ⟨by norm_num, ema_period_gt_length_all_undefined [1, 2] 5 (by norm_num)⟩

/-- C4: one scan step of the signal generator: an undefined EMA entry
emits no signal and leaves the flag unchanged; a bullish stack
(mid < short, long < mid) while not holding emits BUY and sets the
flag; a bearish stack (mid > short, long > mid) while holding emits
SELL and clears the flag; anything else emits no signal and leaves the
flag unchanged. Here `x`, `y`, `z` are the short, mid and long EMA
entries at the current row. -/
theorem signal_generation_cases (x y z : ℚ) (a b c : Option ℚ)
    (rest : List (Option ℚ × Option ℚ × Option ℚ)) (bought : Bool) :
    ((a = none ∨ b = none ∨ c = none) →
        genSignals bought ((a, b, c) :: rest) = none :: genSignals bought rest) ∧
    ((y < x ∧ z < y ∧ bought = false) →
        genSignals bought ((some x, some y, some z) :: rest)
          = some Signal.buy :: genSignals true rest) ∧
    ((y > x ∧ z > y ∧ bought = true) →
        genSignals bought ((some x, some y, some z) :: rest)
          = some Signal.sell :: genSignals false rest) ∧
    (¬(y < x ∧ z < y ∧ bought = false) → ¬(y > x ∧ z > y ∧ bought = true) →
        genSignals bought ((some x, some y, some z) :: rest)
          = none :: genSignals bought rest) := by
  refine ⟨fun h => ?_, fun h => ?_, fun h => ?_, fun h1 h2 => ?_⟩
  · cases a <;> cases b <;> cases c <;>
      simp_all [genSignals, signalStep]
  · simp only [genSignals, signalStep, if_pos h]
  · have hne : ¬(y < x ∧ z < y ∧ bought = false) := by
      rcases h with ⟨-, -, hb⟩
      simp [hb]
    simp only [genSignals, signalStep, if_neg hne, if_pos h]
  · simp only [genSignals, signalStep, if_neg h1, if_neg h2]

/-- Witness for C4: all four step cases at concrete inputs. -/
theorem signal_generation_cases_witness :
    (genSignals false ((none, some 1, some 0) :: []) = none :: genSignals false []) ∧
    (genSignals false ((some 2, some 1, some 0) :: []) = some Signal.buy :: genSignals true []) ∧
    (genSignals true ((some 0, some 1, some 2) :: []) = some Signal.sell :: genSignals false []) ∧
    (genSignals false ((some 0, some 1, some 2) :: []) = none :: genSignals false []) :=
  ⟨(signal_generation_cases 2 1 0 none (some 1) (some 0) [] false).1 (Or.inl rfl),
   (signal_generation_cases 2 1 0 (some 2) (some 1) (some 0) [] false).2.1
     ⟨by norm_num, by norm_num, rfl⟩,
   (signal_generation_cases 0 1 2 (some 0) (some 1) (some 2) [] true).2.2.1
     ⟨by norm_num, by norm_num, rfl⟩,
   (signal_generation_cases 0 1 2 (some 0) (some 1) (some 2) [] false).2.2.2
     (by norm_num) (by norm_num)⟩

/-- The scan of the signal generator satisfies the alternation
predicate from any starting flag value. -/
theorem alternatesFrom_genSignals (rows : List (Option ℚ × Option ℚ × Option ℚ)) :
    ∀ holding, alternatesFrom holding (genSignals holding rows) = true := by
  induction rows with
  | nil => intro holding; rfl
  | cons row rest ih =>
    intro holding
    obtain ⟨a, b, c⟩ := row
    rcases a with _ | x
    · simpa [genSignals, signalStep, alternatesFrom] using ih holding
    rcases b with _ | y
    · simpa [genSignals, signalStep, alternatesFrom] using ih holding
    rcases c with _ | z
    · simpa [genSignals, signalStep, alternatesFrom] using ih holding
    by_cases h1 : y < x ∧ z < y ∧ holding = false
    · obtain ⟨hyx, hzy, hb⟩ := h1
      subst hb
      simp only [genSignals, signalStep]
      rw [if_pos ⟨hyx, hzy, trivial⟩]
      simpa [alternatesFrom] using ih true
    · by_cases h2 : y > x ∧ z > y ∧ holding = true
      · obtain ⟨hxy, hyz, hb⟩ := h2
        subst hb
        simp only [genSignals, signalStep]
        rw [if_neg h1, if_pos ⟨hxy, hyz, trivial⟩]
        simpa [alternatesFrom] using ih false
      · simp only [genSignals, signalStep]
        rw [if_neg h1, if_neg h2]
        simpa [alternatesFrom] using ih holding

/-- C5: every signal sequence produced by the generator satisfies the
alternation invariant — scanned left to right with a flag starting
false, each BUY occurs with the flag false and sets it, each SELL with
the flag true and clears it. -/
theorem signal_alternation (e1 e2 e3 : List (Option ℚ)) :
    alternatesFrom false (EMA_trading_strategy e1 e2 e3) = true :=
  alternatesFrom_genSignals (e1.zip (e2.zip e3)) false

/-- C1: one scan step of the backtest: a BUY signal while not holding
records the fee-inflated buy price `close * (1 + 0.0075)` and sets the
flag; a SELL signal while holding multiplies the investment by
`close / buyPrice - 0.0075`, counts the trade as successful exactly
when the updated investment is at least the previous investment (else
as unsuccessful), and clears the flag. -/
theorem backtest_step_cases (st : BState) (c : ℚ) :
    (st.bought = false →
        (assessStep st (c, some Signal.buy)).buyPrice = c * (1 + 0.0075) ∧
        (assessStep st (c, some Signal.buy)).bought = true) ∧
    (st.bought = true →
        (assessStep st (c, some Signal.sell)).investment
            = st.investment * (c / st.buyPrice - 0.0075) ∧
        (assessStep st (c, some Signal.sell)).bought = false ∧
        ((assessStep st (c, some Signal.sell)).numSuccess = st.numSuccess + 1 ↔
            st.investment * (c / st.buyPrice - 0.0075) ≥ st.investment) ∧
        ((assessStep st (c, some Signal.sell)).numFailure = st.numFailure + 1 ↔
            ¬ st.investment * (c / st.buyPrice - 0.0075) ≥ st.investment)) := by
  constructor
  · intro hb
    rw [show assessStep st (c, some Signal.buy)
        = { st with buyPrice := c * (1 + 0.0075), bought := true } from by
        simp [assessStep, hb]]
    exact ⟨rfl, rfl⟩
  · intro hb
    rw [show assessStep st (c, some Signal.sell)
        = { st with
            sellPrice := c,
            investment := st.investment * (c / st.buyPrice - 0.0075),
            numSuccess := if st.investment * (c / st.buyPrice - 0.0075) ≥ st.investment
              then st.numSuccess + 1 else st.numSuccess,
            numFailure := if st.investment * (c / st.buyPrice - 0.0075) ≥ st.investment
              then st.numFailure else st.numFailure + 1,
            bought := false } from by simp [assessStep, hb]]
    refine ⟨rfl, rfl, ?_, ?_⟩
    · by_cases hP : st.investment * (c / st.buyPrice - 0.0075) ≥ st.investment <;>
        simp [hP]
    · by_cases hP : st.investment * (c / st.buyPrice - 0.0075) ≥ st.investment <;>
        simp [hP]

/-- Witness for C1: a BUY step at close 2 from the initial state, and a
SELL step at close 104 from a holding state with buy price 100. -/
theorem backtest_step_cases_witness :
    (assessStep (initState 1000) (2, some Signal.buy)).buyPrice = 2 * (1 + 0.0075) ∧
    (assessStep ⟨1000, 100, 0, true, 0, 0⟩ (104, some Signal.sell)).investment
      = 1000 * (104 / 100 - 0.0075) := by
  refine ⟨((backtest_step_cases (initState 1000) 2).1 rfl).1, ?_⟩
  have h := ((backtest_step_cases ⟨1000, 100, 0, true, 0, 0⟩ 104).2 rfl).1
  simpa using h

/-- The trade counters of the backtest scan, from any starting state,
grow by exactly the number of completed (BUY, SELL) pairs in the signal
entries of the remaining rows. -/
theorem counts_foldl (rows : List (ℚ × Option Signal)) :
    ∀ st : BState,
      (rows.foldl assessStep st).numSuccess + (rows.foldl assessStep st).numFailure
        = st.numSuccess + st.numFailure + completedPairs st.bought (rows.map Prod.snd) := by
  induction rows with
  | nil => intro st; simp [completedPairs]
  | cons row rest ih =>
    intro st
    obtain ⟨c, sig⟩ := row
    simp only [List.foldl_cons, List.map_cons]
    rcases sig with _ | s
    · rw [show assessStep st (c, none) = st from by simp [assessStep]]
      rw [ih st]
      cases hb : st.bought <;> simp [completedPairs, hb]
    · cases s
      · cases hb : st.bought
        · rw [show assessStep st (c, some Signal.buy)
              = { st with buyPrice := c * (1 + 0.0075), bought := true } from by
              simp [assessStep, hb]]
          rw [ih]
          simp [completedPairs, hb]
        · rw [show assessStep st (c, some Signal.buy) = st from by simp [assessStep, hb]]
          rw [ih st]
          simp [completedPairs, hb]
      · cases hb : st.bought
        · rw [show assessStep st (c, some Signal.sell) = st from by simp [assessStep, hb]]
          rw [ih st]
          simp [completedPairs, hb]
        · rw [show assessStep st (c, some Signal.sell)
              = { st with
                  sellPrice := c,
                  investment := st.investment * (c / st.buyPrice - 0.0075),
                  numSuccess := if st.investment * (c / st.buyPrice - 0.0075) ≥ st.investment
                    then st.numSuccess + 1 else st.numSuccess,
                  numFailure := if st.investment * (c / st.buyPrice - 0.0075) ≥ st.investment
                    then st.numFailure else st.numFailure + 1,
                  bought := false } from by simp [assessStep, hb]]
          rw [ih]
          simp only [completedPairs, hb]
          by_cases hP : st.investment * (c / st.buyPrice - 0.0075) ≥ st.investment <;>
            simp [hP] <;> omega

/-- C6: the backtest counters sum to the number of completed
(BUY, SELL) pairs in the signal sequence, and a trailing BUY executed
from a non-holding final state changes neither the investment nor
either counter. -/
theorem trade_counts_completed_pairs (rows : List (ℚ × Option Signal)) (A c : ℚ) :
    ((backtestFold rows A).numSuccess + (backtestFold rows A).numFailure
        = completedPairs false (rows.map Prod.snd)) ∧
    ((backtestFold rows A).bought = false →
        (backtestFold (rows ++ [(c, some Signal.buy)]) A).investment
            = (backtestFold rows A).investment ∧
        (backtestFold (rows ++ [(c, some Signal.buy)]) A).numSuccess
            = (backtestFold rows A).numSuccess ∧
        (backtestFold (rows ++ [(c, some Signal.buy)]) A).numFailure
            = (backtestFold rows A).numFailure) := by
  constructor
  · have h := counts_foldl rows (initState A)
    simpa [backtestFold, initState] using h
  · intro hb
    have happ : backtestFold (rows ++ [(c, some Signal.buy)]) A
        = assessStep (backtestFold rows A) (c, some Signal.buy) := by
      simp [backtestFold, List.foldl_append]
    rw [happ]
    rw [show assessStep (backtestFold rows A) (c, some Signal.buy)
        = { backtestFold rows A with
            buyPrice := c * (1 + 0.0075), bought := true } from by
        simp [assessStep, hb]]
    exact ⟨rfl, rfl, rfl⟩

/-- Witness for C6: one completed pair over two rows, and a trailing
BUY appended to an empty scan. -/
theorem trade_counts_completed_pairs_witness :
    ((backtestFold [(100, some Signal.buy), (104, some Signal.sell)] 1000).numSuccess
        + (backtestFold [(100, some Signal.buy), (104, some Signal.sell)] 1000).numFailure
        = completedPairs false [some Signal.buy, some Signal.sell]) ∧
    ((backtestFold [(5, some Signal.buy)] 1000).investment
        = (backtestFold [] 1000).investment ∧
      (backtestFold [(5, some Signal.buy)] 1000).numSuccess
        = (backtestFold [] 1000).numSuccess ∧
      (backtestFold [(5, some Signal.buy)] 1000).numFailure
        = (backtestFold [] 1000).numFailure) := by
  constructor
  · simpa using
      (trade_counts_completed_pairs [(100, some Signal.buy), (104, some Signal.sell)] 1000 0).1
  · have h := (trade_counts_completed_pairs [] 1000 5).2 rfl
    simpa using h

/-- C7: with zero completed trades, the backtest surfaces an explicit
failure (the source raises ZeroDivisionError computing the success
rate, integer 0/0, embedded as `none`) rather than returning a silently
wrong result. -/
theorem zero_trades_explicit_failure (rows : List (ℚ × Option Signal)) (A : ℚ)
    (h : completedPairs false (rows.map Prod.snd) = 0) :
    assessTradingStrategy rows A = none := by
  have hc := counts_foldl rows (initState A)
  have hz : (backtestFold rows A).numSuccess + (backtestFold rows A).numFailure = 0 := by
    simpa [backtestFold, initState, h] using hc
  simp [assessTradingStrategy, hz]

/-- Witness for C7: a one-row series with no signal. -/
theorem zero_trades_explicit_failure_witness :
    completedPairs false ([(100, (none : Option Signal))].map Prod.snd) = 0 ∧
    assessTradingStrategy [(100, none)] 1000 = none :=
  ⟨rfl, zero_trades_explicit_failure [(100, none)] 1000 rfl⟩

end Trading
